import Mathlib

/-!
Shallow embedding of the LogicAudio core engine: tempo analysis
(analyzeBpmFromData, detectBpmInChunk), loudness measurement
(calculateTrackLoudness), the auto gain resolver, and the playback
synchronization and gain/phase composition logic of the App component.

Modelling conventions: JavaScript numbers are modelled as real numbers,
typed arrays as lists of reals, and null as Option.  Out of range reads of
JS arrays (which would produce NaN downstream) are modelled as reading 0;
none of the properties proved here depends on those code paths.  Division
by zero follows the Lean convention (x / 0 = 0) where JS would produce an
infinity; every such value is fed into the final clamp, which keeps the
results in range either way.
-/

noncomputable section

namespace LogicAudio

/-- Track identifiers used by the deck callbacks. -/
inductive TrackId
  | A
  | B
  | C
deriving DecidableEq

/-- The three workspace tabs of the App component. -/
inductive ViewMode
  | comparator
  | analyzer
  | genre
deriving DecidableEq

/-- Decoded audio as exposed by an AudioBuffer: per channel sample lists
plus the frame count (buffer.length). -/
structure AudioBufferModel where
  channels : List (List ℝ)
  length : ℕ

/-- Number of samples visited by the stride 1000 loop of
calculateTrackLoudness: indices 0, 1000, 2000, ... below len. -/
def strideCount (len : ℕ) : ℕ := (len + 999) / 1000

/-- Per channel contribution of calculateTrackLoudness: mean square
amplitude over every 1000th sample (the chanSum / count term; a channel
with no visited samples contributes 0). -/
def channelMeanSquare (data : List ℝ) (len : ℕ) : ℝ :=
  if 0 < strideCount len then
    (∑ i ∈ Finset.range (strideCount len), data.getD (i * 1000) 0 ^ 2) / strideCount len
  else 0

/-- RMS proxy used by calculateTrackLoudness: per channel mean square power
averaged across channels, then a square root. -/
def trackRms (buffer : AudioBufferModel) : ℝ :=
  Real.sqrt
    (((buffer.channels.map fun data => channelMeanSquare data buffer.length).sum) /
      buffer.channels.length)

/-- From calculateTrackLoudness: approximate RMS loudness in dB, with the
result floored at -100 when the RMS falls below 0.00001. -/
def calculateTrackLoudness (buffer : AudioBufferModel) : ℝ :=
  if trackRms buffer < 0.00001 then -100 else 20 * Real.logb 10 (trackRms buffer)

/-- Matched linear gain pair produced by the auto gain calculation. -/
structure GainPair where
  A : ℝ
  B : ℝ

/-- The auto gain resolver from the App auto gain effect: target the
quieter measured loudness and convert each dB difference to a linear
gain factor. -/
def autoGainPair (dbA dbB : ℝ) : GainPair :=
  ⟨(10 : ℝ) ^ ((min dbA dbB - dbA) / 20), (10 : ℝ) ^ ((min dbA dbB - dbB) / 20)⟩

/-- A deck handle as seen by the auto gain effect: getDecodedData returns
the decoded buffer or null. -/
structure DeckHandle where
  decodedData : Option AudioBufferModel

/-- From the App auto gain useEffect.  With a missing instance the pair is
reset to one/one; with both instances present but a buffer still undecoded
the effect returns early and the previous pair stays in effect; otherwise
the pair is recomputed from the two measured loudness values. -/
def autoGainEffect (wsInstanceA wsInstanceB : Option DeckHandle) (prev : GainPair) : GainPair :=
  match wsInstanceA, wsInstanceB with
  | some a, some b =>
    match a.decodedData, b.decodedData with
    | some bufA, some bufB =>
      autoGainPair (calculateTrackLoudness bufA) (calculateTrackLoudness bufB)
    | _, _ => prev
  | _, _ => ⟨1, 1⟩

/-- Arguments of one applyVolumeAndPhase call: volume, phase multiplier and
the forceGraph flag (the gain node downstream receives volume * phase). -/
structure DeckCommand where
  volume : ℝ
  phase : ℝ
  forceGraph : Bool

/-- The commands issued by the volume and effects useEffect in comparator
mode: one applyVolumeAndPhase call per audible deck plus the two ghost deck
volumes (set through setVolume). -/
structure VolumeEffectResult where
  deckA : DeckCommand
  deckB : DeckCommand
  ghostVolumeA : ℝ
  ghostVolumeB : ℝ

/-- Mixer related state read by the volume and effects useEffect. -/
structure MixState where
  crossfade : ℝ
  autoGain : Bool
  isDiffMode : Bool
  gainA : ℝ
  gainB : ℝ

/-- From the App volume and effects useEffect.  In comparator mode it
composes the per deck volume and phase from crossfade, auto gain and
differential mode state and silences the ghost decks; in the other tabs it
issues none of these commands (the analyzer branch only sets the analyzer
deck volume). -/
def volumeEffect (activeTab : ViewMode) (s : MixState) : Option VolumeEffectResult :=
  match activeTab with
  | ViewMode.comparator =>
    let gA := if s.autoGain then s.gainA else 1
    let gB := if s.autoGain then s.gainB else 1
    if s.isDiffMode then
      some ⟨⟨gA, 1, true⟩, ⟨gB, -1, true⟩, 0, 0⟩
    else
      some ⟨⟨(1 - s.crossfade) * gA, 1, false⟩, ⟨s.crossfade * gB, 1, false⟩, 0, 0⟩
  | _ => none

/-- State read by one invocation of the handleTimeUpdate callback: the two
guard flags, the active tab, the playing flag, whether track A is loaded
(which determines the master deck), the master deck playback position and
the playback positions of the other active decks. -/
structure SyncConfig where
  isSeeking : Bool
  isSyncing : Bool
  activeTab : ViewMode
  isPlaying : Bool
  hasTrackA : Bool
  masterTime : ℝ
  slaveTimes : List ℝ

/-- Commands issued by one invocation of handleTimeUpdate: the shared time
update, one optional corrective setTime argument per slave deck, whether
the syncing guard was raised, and the delay of the scheduled guard reset. -/
structure SyncResult where
  newCurrentTime : Option ℝ
  corrections : List (Option ℝ)
  syncingSet : Bool
  guardDelayMs : Option ℝ

/-- The no-op result of handleTimeUpdate (an early return). -/
def noSyncAction : SyncResult := ⟨none, [], false, none⟩

/-- From the App handleTimeUpdate callback: guarded by the seeking and
syncing flags; in comparator mode, on a master time update while playing,
each slave whose drift from the master position exceeds 0.04 s receives one
corrective setTime call, and any correction raises the syncing guard with a
10 ms reset. -/
def handleTimeUpdate (cfg : SyncConfig) (time : ℝ) (sourceId : TrackId) : SyncResult :=
  if cfg.isSeeking then noSyncAction
  else if cfg.isSyncing then noSyncAction
  else
    match cfg.activeTab with
    | ViewMode.analyzer => ⟨some time, [], false, none⟩
    | ViewMode.genre => noSyncAction
    | ViewMode.comparator =>
      if sourceId = (if cfg.hasTrackA then TrackId.A else TrackId.B) then
        if cfg.isPlaying then
          let corrections := cfg.slaveTimes.map fun slaveTime =>
            if |cfg.masterTime - slaveTime| > 0.04 then some cfg.masterTime else none
          let syncingSet := corrections.any Option.isSome
          ⟨some time, corrections, syncingSet, if syncingSet then some 10 else none⟩
        else ⟨some time, [], false, none⟩
      else noSyncAction

/-- Envelope rate of detectBpmInChunk: sampleRate / 256. -/
def envRate (sampleRate : ℝ) : ℝ := sampleRate / 256

/-- Envelope length of detectBpmInChunk: ceil(data.length / 256). -/
def envLen (data : List ℝ) : ℕ := (data.length + 255) / 256

/-- RMS envelope of detectBpmInChunk: per 256 sample frame, the square root
of the mean square amplitude. -/
def envelope (data : List ℝ) : List ℝ :=
  (List.range (envLen data)).map fun i =>
    Real.sqrt
      ((∑ j ∈ Finset.Ico (i * 256) (min (i * 256 + 256) data.length), data.getD j 0 ^ 2) /
        (((min (i * 256 + 256) data.length : ℕ) : ℝ) - ((i * 256 : ℕ) : ℝ)))

/-- Onset envelope of detectBpmInChunk: half wave rectified first
difference of the RMS envelope (index 0 keeps its initial 0). -/
def onset (data : List ℝ) : List ℝ :=
  (List.range (envLen data)).map fun i =>
    if i = 0 then 0
    else max 0 ((envelope data).getD i 0 - (envelope data).getD (i - 1) 0)

/-- Integer indexed read of the onset envelope (out of range reads are
modelled as 0). -/
def onsetAt (data : List ℝ) (j : ℤ) : ℝ :=
  if 0 ≤ j then (onset data).getD j.toNat 0 else 0

/-- Raw autocorrelation of the onset envelope at one lag, as computed both
by the search loop and by the getCorrAt helper of detectBpmInChunk. -/
def corrAt (data : List ℝ) (lag : ℤ) : ℝ :=
  ∑ i ∈ Finset.range ((envLen data : ℤ) - lag).toNat,
    onsetAt data i * onsetAt data (i + lag)

/-- Smallest searched lag: floor((60 / 190) * envelopeRate). -/
def minLag (sampleRate : ℝ) : ℤ := ⌊60 / 190 * envRate sampleRate⌋

/-- Largest searched lag: floor((60 / 55) * envelopeRate). -/
def maxLag (sampleRate : ℝ) : ℤ := ⌊60 / 55 * envRate sampleRate⌋

/-- The lags visited by the search loop of detectBpmInChunk, in order. -/
def lagList (sampleRate : ℝ) : List ℤ :=
  (List.range (maxLag sampleRate - minLag sampleRate + 1).toNat).map
    fun i : ℕ => minLag sampleRate + (i : ℤ)

/-- Perceptual weight of one lag: a log Gaussian centred at 110 BPM applied
to the BPM corresponding to the lag. -/
def lagWeight (sampleRate : ℝ) (lag : ℤ) : ℝ :=
  Real.exp (-(Real.logb 2 (60 * envRate sampleRate / (lag : ℝ) / 110) ^ 2 / 0.6))

/-- The search loop of detectBpmInChunk: fold over the lag list tracking
(maxWeightedCorr, bestLag), starting from (-1, -1). -/
def bestLagSearch (data : List ℝ) (sampleRate : ℝ) : ℝ × ℤ :=
  (lagList sampleRate).foldl
    (fun s lag =>
      if corrAt data lag * lagWeight sampleRate lag > s.1 then
        (corrAt data lag * lagWeight sampleRate lag, lag)
      else s)
    (-1, -1)

/-- Final clamp of detectBpmInChunk to the 55 to 190 BPM search range. -/
def clampBpm (x : ℝ) : ℝ := if x < 55 then 55 else if x > 190 then 190 else x

/-- From detectBpmInChunk: onset autocorrelation tempo estimate with
perceptual weighting, parabolic refinement over the raw correlation, and a
final clamp; none when no lag was ever selected. -/
def detectBpmInChunk (data : List ℝ) (sampleRate : ℝ) : Option ℝ :=
  let bestLag := (bestLagSearch data sampleRate).2
  if bestLag = -1 then none
  else
    let y1 := corrAt data (bestLag - 1)
    let y2 := corrAt data bestLag
    let y3 := corrAt data (bestLag + 1)
    let denominator := y1 - 2 * y2 + y3
    let refinedLag : ℝ :=
      if |denominator| > 0.00001 then (bestLag : ℝ) + 0.5 * (y1 - y3) / denominator
      else (bestLag : ℝ)
    some (clampBpm (60 * envRate sampleRate / refinedLag))

/-- One point of the tempo timeline. -/
structure BpmPoint where
  time : ℝ
  bpm : ℝ

/-- JS TypedArray.slice index semantics: a negative index counts from the
end of the array, and both indices are clamped to the array bounds. -/
def jsSlice (data : List ℝ) (s e : ℤ) : List ℝ :=
  let len : ℤ := data.length
  let s' := (if s < 0 then max (len + s) 0 else min s len).toNat
  let e' := (if e < 0 then max (len + e) 0 else min e len).toNat
  (data.take e').drop s'

/-- Step of the sequencer loop: interval, with 0 (auto) mapped to 30 s. -/
def seqStep (interval : ℝ) : ℝ := if interval = 0 then 30 else interval

/-- First sample of an analysis window: floor(startTime * sampleRate). -/
def winStartSample (sampleRate startTime : ℝ) : ℤ := ⌊startTime * sampleRate⌋

/-- One past last sample of an analysis window:
floor(min(startTime + max(step, 30), duration) * sampleRate); the nominal
max(step, 30) s window is truncated at the end of the track. -/
def winEndSample (sampleRate duration step startTime : ℝ) : ℤ :=
  ⌊min (startTime + max step 30) duration * sampleRate⌋

/-- Skip condition of the sequencer loop: the window holds fewer than five
seconds of audio. -/
def winSkipped (sampleRate duration step startTime : ℝ) : Prop :=
  ((winEndSample sampleRate duration step startTime : ℝ) -
      (winStartSample sampleRate startTime : ℝ)) <
    sampleRate * 5

instance winSkippedDecidable (sampleRate duration step startTime : ℝ) :
    Decidable (winSkipped sampleRate duration step startTime) := by
  unfold winSkipped
  exact inferInstance

/-- The slice of filtered samples handed to the estimator for one window. -/
def winSlice (data : List ℝ) (sampleRate duration step startTime : ℝ) : List ℝ :=
  jsSlice data (winStartSample sampleRate startTime)
    (winEndSample sampleRate duration step startTime)

/-- Body of the analyzeBpmFromData loop for the window at startTime: skip a
short window; push a fresh point on a successful estimate; on a failed
estimate carry the previous bpm forward when a prior point exists, and emit
nothing otherwise. -/
def processWindow (data : List ℝ) (sampleRate duration step : ℝ)
    (points : List BpmPoint) (startTime : ℝ) : List BpmPoint :=
  if winSkipped sampleRate duration step startTime then points
  else
    match detectBpmInChunk (winSlice data sampleRate duration step startTime) sampleRate with
    | some bpm => points ++ [⟨startTime, bpm⟩]
    | none =>
      match points.getLast? with
      | some prev => points ++ [⟨startTime, prev.bpm⟩]
      | none => points

/-- From analyzeBpmFromData, for a positive step: the loop visits the
window starts 0, step, 2*step, ... below duration, which for positive step
are exactly k * step for k below ceil(duration / step). -/
def analyzeBpmFromData (data : List ℝ) (sampleRate duration : ℝ) (interval : ℝ) : List BpmPoint :=
  ((List.range (Nat.ceil (duration / seqStep interval))).map
      fun k : ℕ => (k : ℝ) * seqStep interval).foldl
    (processWindow data sampleRate duration (seqStep interval)) []

/-- The analyzeBpmFromData loop exactly as written, indexed by fuel: none
means the fuel ran out while the loop guard still held.  For a negative
step the guard startTime < duration never fails, so no amount of fuel
completes the loop. -/
def analyzeBpmLoop (data : List ℝ) (sampleRate duration step : ℝ) :
    ℕ → ℝ → List BpmPoint → Option (List BpmPoint)
  | 0, startTime, points => if startTime < duration then none else some points
  | n + 1, startTime, points =>
    if startTime < duration then
      analyzeBpmLoop data sampleRate duration step n (startTime + step)
        (processWindow data sampleRate duration step points startTime)
    else some points

/-- Termination of the analyzeBpmFromData loop on the given arguments. -/
def analyzeBpmTerminates (data : List ℝ) (sampleRate duration interval : ℝ) : Prop :=
  ∃ n points,
    analyzeBpmLoop data sampleRate duration (seqStep interval) n 0 [] = some points

/-! ### Supporting lemmas -/

/-- Reading any index of an all zero list (with default 0) yields 0. -/
theorem getD_eq_zero_of_all_zero {l : List ℝ} (h : ∀ x ∈ l, x = 0) (i : ℕ) :
    l.getD i 0 = 0 := by
  induction l generalizing i with
  | nil => simp
  | cons a t ih =>
    cases i with
    | zero => simpa using h a (by simp)
    | succ n => simpa using ih (fun x hx => h x (by simp [hx])) n

/-- Reading any index of a nonnegative list (with default 0) yields a
nonnegative value. -/
theorem getD_nonneg {l : List ℝ} (h : ∀ x ∈ l, 0 ≤ x) (i : ℕ) : 0 ≤ l.getD i 0 := by
  induction l generalizing i with
  | nil => simp
  | cons a t ih =>
    cases i with
    | zero => simpa using h a (by simp)
    | succ n => simpa using ih (fun x hx => h x (by simp [hx])) n

/-- Every entry of the onset envelope is nonnegative. -/
theorem onset_nonneg (data : List ℝ) : ∀ x ∈ onset data, 0 ≤ x := by
  intro x hx
  obtain ⟨i, _, rfl⟩ := List.mem_map.1 hx
  split_ifs
  · exact le_refl 0
  · exact le_max_left 0 _

/-- Integer indexed onset reads are nonnegative. -/
theorem onsetAt_nonneg (data : List ℝ) (j : ℤ) : 0 ≤ onsetAt data j := by
  unfold onsetAt
  split_ifs
  · exact getD_nonneg (onset_nonneg data) _
  · exact le_refl 0

/-- The raw onset autocorrelation is nonnegative at every lag. -/
theorem corrAt_nonneg (data : List ℝ) (lag : ℤ) : 0 ≤ corrAt data lag :=
  Finset.sum_nonneg fun i _ => mul_nonneg (onsetAt_nonneg data i) (onsetAt_nonneg data (i + lag))

/-- The perceptual lag weight is strictly positive. -/
theorem lagWeight_pos (sampleRate : ℝ) (lag : ℤ) : 0 < lagWeight sampleRate lag :=
  Real.exp_pos _

/-- The envelope rate is nonnegative for a nonnegative sample rate. -/
theorem envRate_nonneg {sampleRate : ℝ} (h : 0 ≤ sampleRate) : 0 ≤ envRate sampleRate :=
  div_nonneg h (by norm_num)

/-- The smallest searched lag is nonnegative for a nonnegative sample rate. -/
theorem minLag_nonneg {sampleRate : ℝ} (h : 0 ≤ sampleRate) : 0 ≤ minLag sampleRate :=
  Int.floor_nonneg.2 (mul_nonneg (by norm_num) (envRate_nonneg h))

/-- The searched lag range is never empty for a nonnegative sample rate. -/
theorem minLag_le_maxLag {sampleRate : ℝ} (h : 0 ≤ sampleRate) :
    minLag sampleRate ≤ maxLag sampleRate :=
  Int.floor_le_floor
    (mul_le_mul_of_nonneg_right (by norm_num : (60 / 190 : ℝ) ≤ 60 / 55) (envRate_nonneg h))

/-- The visited lag list is nonempty for a nonnegative sample rate. -/
theorem lagList_ne_nil {sampleRate : ℝ} (h : 0 ≤ sampleRate) : lagList sampleRate ≠ [] := by
  unfold lagList
  simp only [ne_eq, List.map_eq_nil_iff, List.range_eq_nil]
  rw [Int.toNat_eq_zero]
  have := minLag_le_maxLag h
  omega

/-- Every visited lag is nonnegative for a nonnegative sample rate. -/
theorem lagList_nonneg {sampleRate : ℝ} (h : 0 ≤ sampleRate) :
    ∀ l ∈ lagList sampleRate, 0 ≤ l := by
  intro l hl
  obtain ⟨i, _, rfl⟩ := List.mem_map.1 hl
  have := minLag_nonneg h
  omega

/-- Invariant step of the search fold: starting from a state with
nonnegative best weighted correlation and nonnegative best lag, the fold
keeps both nonnegative when every visited weighted correlation and lag is
nonnegative. -/
theorem foldlBest_keeps_nonneg (w : ℤ → ℝ) :
    ∀ (L : List ℤ) (s : ℝ × ℤ), (∀ l ∈ L, 0 ≤ w l ∧ 0 ≤ l) → 0 ≤ s.1 → 0 ≤ s.2 →
      0 ≤ (L.foldl (fun s lag => if w lag > s.1 then (w lag, lag) else s) s).2 := by
  intro L
  induction L with
  | nil => intro s _ _ h2; simpa using h2
  | cons a rest ih =>
    intro s h h1 h2
    rw [List.foldl_cons]
    have ha := h a (by simp)
    by_cases hgt : w a > s.1
    · rw [if_pos hgt]
      exact ih (w a, a) (fun l hl => h l (by simp [hl])) ha.1 ha.2
    · rw [if_neg hgt]
      exact ih s (fun l hl => h l (by simp [hl])) h1 h2

/-- On a nonempty lag list with nonnegative weighted correlations and
nonnegative lags, the search fold started from (-1, -1) selects some
nonnegative lag (the first candidate already beats the -1 sentinel). -/
theorem foldlBest_snd_nonneg (w : ℤ → ℝ) (L : List ℤ) (hne : L ≠ [])
    (h : ∀ l ∈ L, 0 ≤ w l ∧ 0 ≤ l) :
    0 ≤ (L.foldl (fun s lag => if w lag > s.1 then (w lag, lag) else s)
      ((-1 : ℝ), (-1 : ℤ))).2 := by
  cases L with
  | nil => exact absurd rfl hne
  | cons a rest =>
    have ha := h a (by simp)
    rw [List.foldl_cons]
    have hgt : w a > ((-1 : ℝ), (-1 : ℤ)).1 := by
      have : (-1 : ℝ) < 0 := by norm_num
      simpa using lt_of_lt_of_le this ha.1
    rw [if_pos hgt]
    exact foldlBest_keeps_nonneg w rest (w a, a) (fun l hl => h l (by simp [hl])) ha.1 ha.2

/-- For a nonnegative sample rate the search loop always selects a lag. -/
theorem bestLagSearch_snd_nonneg (data : List ℝ) {sampleRate : ℝ} (hsr : 0 ≤ sampleRate) :
    0 ≤ (bestLagSearch data sampleRate).2 := by
  unfold bestLagSearch
  apply foldlBest_snd_nonneg (fun lag => corrAt data lag * lagWeight sampleRate lag)
    (lagList sampleRate) (lagList_ne_nil hsr)
  intro l hl
  exact ⟨mul_nonneg (corrAt_nonneg data l) (lagWeight_pos sampleRate l).le,
    lagList_nonneg hsr l hl⟩

/-- The final clamp always lands in the 55 to 190 range. -/
theorem clampBpm_mem (x : ℝ) : 55 ≤ clampBpm x ∧ clampBpm x ≤ 190 := by
  unfold clampBpm
  split_ifs with h1 h2
  · exact ⟨le_refl _, by norm_num⟩
  · exact ⟨by norm_num, le_refl _⟩
  · push_neg at h1 h2
    exact ⟨h1, h2⟩

/-- With a nonnegative sample rate, detectBpmInChunk always returns an
estimate. -/
theorem detectBpmInChunk_isSome (data : List ℝ) {sampleRate : ℝ} (hsr : 0 ≤ sampleRate) :
    (detectBpmInChunk data sampleRate).isSome = true := by
  have h := bestLagSearch_snd_nonneg data hsr
  have hne : ¬((bestLagSearch data sampleRate).2 = -1) := by
    intro heq
    rw [heq] at h
    norm_num at h
  simp [detectBpmInChunk, hne]

/-- Every returned estimate of detectBpmInChunk lies in [55, 190]. -/
theorem detectBpmInChunk_mem {data : List ℝ} {sampleRate b : ℝ}
    (h : detectBpmInChunk data sampleRate = some b) : 55 ≤ b ∧ b ≤ 190 := by
  unfold detectBpmInChunk at h
  by_cases hb : (bestLagSearch data sampleRate).2 = -1
  · rw [if_pos hb] at h
    exact absurd h (by simp)
  · rw [if_neg hb] at h
    simp only [Option.some.injEq] at h
    rw [← h]
    exact clampBpm_mem _

/-- Case analysis of the sequencer loop body: it either leaves the points
unchanged, or appends one point at the window start whose bpm is either a
fresh in-range estimate or a copy of the last previous bpm. -/
theorem processWindow_spec (data : List ℝ) (sampleRate duration step : ℝ)
    (points : List BpmPoint) (startTime : ℝ) :
    processWindow data sampleRate duration step points startTime = points ∨
    ∃ b,
      processWindow data sampleRate duration step points startTime =
        points ++ [⟨startTime, b⟩] ∧
      (55 ≤ b ∧ b ≤ 190 ∨ ∃ prev, points.getLast? = some prev ∧ b = prev.bpm) := by
  unfold processWindow
  split_ifs with h
  · exact Or.inl rfl
  · cases hdet : detectBpmInChunk (winSlice data sampleRate duration step startTime) sampleRate with
    | some bpm => exact Or.inr ⟨bpm, rfl, Or.inl (detectBpmInChunk_mem hdet)⟩
    | none =>
      cases hlast : points.getLast? with
      | none => exact Or.inl rfl
      | some prev => exact Or.inr ⟨prev.bpm, rfl, Or.inr ⟨prev, rfl, rfl⟩⟩

/-- Invariant of the sequencer fold over the first N windows: the emitted
timeline is strictly increasing in time, every bpm is in [55, 190], and
every emitted time is below N * step. -/
theorem analyzeFold_invariant (data : List ℝ) (sampleRate duration step : ℝ)
    (hstep : 0 < step) (N : ℕ) :
    (((List.range N).map fun k : ℕ => (k : ℝ) * step).foldl
        (processWindow data sampleRate duration step) []).Pairwise
      (fun p q => p.time < q.time) ∧
    ∀ p ∈ ((List.range N).map fun k : ℕ => (k : ℝ) * step).foldl
        (processWindow data sampleRate duration step) [],
      (55 ≤ p.bpm ∧ p.bpm ≤ 190) ∧ p.time < (N : ℝ) * step := by
  induction N with
  | zero => simp
  | succ n ih =>
    obtain ⟨ihPair, ihMem⟩ := ih
    have hstepcast : ((n : ℝ)) * step < ((n + 1 : ℕ) : ℝ) * step := by
      push_cast
      nlinarith [hstep]
    rw [List.range_succ, List.map_append, List.foldl_append]
    simp only [List.map_cons, List.map_nil, List.foldl_cons, List.foldl_nil]
    rcases processWindow_spec data sampleRate duration step
        (((List.range n).map fun k : ℕ => (k : ℝ) * step).foldl
          (processWindow data sampleRate duration step) []) ((n : ℝ) * step) with
      hsame | ⟨b, heq, hb⟩
    · rw [hsame]
      refine ⟨ihPair, fun p hp => ⟨(ihMem p hp).1, lt_trans (ihMem p hp).2 hstepcast⟩⟩
    · rw [heq]
      constructor
      · rw [List.pairwise_append]
        refine ⟨ihPair, by simp, ?_⟩
        intro p hp q hq
        simp only [List.mem_singleton] at hq
        subst hq
        exact (ihMem p hp).2
      · intro p hp
        rcases List.mem_append.1 hp with hold | hnew
        · exact ⟨(ihMem p hold).1, lt_trans (ihMem p hold).2 hstepcast⟩
        · simp only [List.mem_singleton] at hnew
          subst hnew
          refine ⟨?_, hstepcast⟩
          rcases hb with hfresh | ⟨prev, hlast, rfl⟩
          · exact hfresh
          · exact (ihMem prev (List.mem_of_getLast?_eq_some hlast)).1

/-- For a nonnegative sample rate the sequencer fold over the first N
windows is exactly the fresh point for every non skipped window: the carry
forward branch is never taken. -/
theorem analyzeFold_eq_filterMap (data : List ℝ) (sampleRate duration step : ℝ)
    (hsr : 0 ≤ sampleRate) (N : ℕ) :
    ((List.range N).map fun k : ℕ => (k : ℝ) * step).foldl
        (processWindow data sampleRate duration step) [] =
      (List.range N).filterMap fun k : ℕ =>
        if winSkipped sampleRate duration step ((k : ℝ) * step) then none
        else
          some ⟨(k : ℝ) * step,
            (detectBpmInChunk (winSlice data sampleRate duration step ((k : ℝ) * step))
                sampleRate).getD 0⟩ := by
  induction N with
  | zero => simp
  | succ n ih =>
    rw [List.range_succ, List.map_append, List.foldl_append, List.filterMap_append, ih]
    simp only [List.map_cons, List.map_nil, List.foldl_cons, List.foldl_nil,
      List.filterMap_cons, List.filterMap_nil]
    by_cases hskip : winSkipped sampleRate duration step ((n : ℝ) * step)
    · rw [if_pos hskip]
      unfold processWindow
      rw [if_pos hskip]
      simp
    · rw [if_neg hskip]
      obtain ⟨b, hb⟩ := Option.isSome_iff_exists.1
        (detectBpmInChunk_isSome (winSlice data sampleRate duration step ((n : ℝ) * step)) hsr)
      unfold processWindow
      rw [if_neg hskip, hb]
      simp [hb]

/-- A positive step for every nonnegative interval. -/
theorem seqStep_pos {interval : ℝ} (h : 0 ≤ interval) : 0 < seqStep interval := by
  unfold seqStep
  split_ifs with h0
  · norm_num
  · exact lt_of_le_of_ne h (Ne.symm h0)

/-- The empty slice has an empty onset autocorrelation. -/
theorem corrAt_nil (lag : ℤ) : corrAt [] lag = 0 := by
  unfold corrAt
  apply Finset.sum_eq_zero
  intro i _
  have h : ∀ j : ℤ, onsetAt [] j = 0 := by
    intro j
    unfold onsetAt
    split_ifs
    · simp [onset, envLen]
    · rfl
  rw [h, h, mul_zero]

/-- Any slice of the empty sample list is empty. -/
theorem jsSlice_nil (s e : ℤ) : jsSlice [] s e = [] := by
  unfold jsSlice
  simp

/-- The estimator on the empty slice at sample rate 10: the lag range is
the single lag 0, which is selected; refinement is degenerate, the raw
division yields 0 and the clamp returns 55. -/
theorem detect_nil_ten : detectBpmInChunk [] 10 = some 55 := by
  have hmin : minLag 10 = 0 := by
    unfold minLag envRate
    rw [Int.floor_eq_zero_iff]
    constructor <;> norm_num
  have hmax : maxLag 10 = 0 := by
    unfold maxLag envRate
    rw [Int.floor_eq_zero_iff]
    constructor <;> norm_num
  have hlags : lagList 10 = [0] := by
    unfold lagList
    rw [hmin, hmax]
    norm_num
    decide
  have hbest : bestLagSearch [] 10 = (0, 0) := by
    unfold bestLagSearch
    rw [hlags]
    simp only [List.foldl_cons, List.foldl_nil, corrAt_nil, zero_mul]
    rw [if_pos (by norm_num : (0 : ℝ) > ((-1 : ℝ), (-1 : ℤ)).1)]
  unfold detectBpmInChunk
  rw [hbest]
  simp only [corrAt_nil]
  norm_num [clampBpm]

/-- The estimator on the empty slice at sample rate -256: the lag range
collapses (minLag -1, maxLag -2), no lag is visited and the sentinel makes
the estimator return none. -/
theorem detect_nil_neg : detectBpmInChunk [] (-256) = none := by
  have hmin : minLag (-256) = -1 := by
    unfold minLag envRate
    rw [Int.floor_eq_iff]
    constructor <;> norm_num
  have hmax : maxLag (-256) = -2 := by
    unfold maxLag envRate
    rw [Int.floor_eq_iff]
    constructor <;> norm_num
  have hlags : lagList (-256) = [] := by
    unfold lagList
    rw [hmin, hmax]
    norm_num
  have hbest : bestLagSearch [] (-256) = (-1, -1) := by
    unfold bestLagSearch
    rw [hlags]
    rfl
  unfold detectBpmInChunk
  rw [hbest]
  norm_num

/-- The analyzeBpmFromData loop runs forever at duration 1 and step -1:
whenever the current start time is at most 0, the guard holds and the next
start time is again at most 0, so every fuel bound is exhausted. -/
theorem analyzeBpmLoop_neg_none :
    ∀ (n : ℕ) (t : ℝ) (acc : List BpmPoint), t ≤ 0 →
      analyzeBpmLoop [] 1 1 (-1) n t acc = none := by
  intro n
  induction n with
  | zero =>
    intro t acc ht
    simp only [analyzeBpmLoop]
    rw [if_pos (by linarith : t < 1)]
  | succ m ih =>
    intro t acc ht
    simp only [analyzeBpmLoop]
    rw [if_pos (by linarith : t < 1)]
    exact ih (t + -1) _ (by linarith)

/-- For a positive step, the fuelled loop started at window j with enough
fuel completes and equals the fold over the remaining windows. -/
theorem analyzeBpmLoop_eq (data : List ℝ) (sampleRate duration step : ℝ) (hstep : 0 < step) :
    ∀ (n j : ℕ) (acc : List BpmPoint), duration ≤ ((j : ℝ) + (n : ℝ)) * step →
      analyzeBpmLoop data sampleRate duration step n ((j : ℝ) * step) acc =
        some (((List.range' j (Nat.ceil (duration / step) - j)).map
            fun k : ℕ => (k : ℝ) * step).foldl
          (processWindow data sampleRate duration step) acc) := by
  intro n
  induction n with
  | zero =>
    intro j acc h
    push_cast at h
    rw [add_zero] at h
    have hle : Nat.ceil (duration / step) ≤ j := by
      rw [Nat.ceil_le, div_le_iff hstep]
      exact h
    simp only [analyzeBpmLoop]
    rw [if_neg (not_lt.2 h), Nat.sub_eq_zero_of_le hle]
    simp
  | succ m ih =>
    intro j acc h
    by_cases hlt : (j : ℝ) * step < duration
    · simp only [analyzeBpmLoop]
      rw [if_pos hlt]
      have hcast : (j : ℝ) * step + step = ((j + 1 : ℕ) : ℝ) * step := by
        push_cast
        ring
      rw [hcast, ih (j + 1) (processWindow data sampleRate duration step acc ((j : ℝ) * step))
        (by push_cast at h ⊢; linarith)]
      have hjN : j < Nat.ceil (duration / step) :=
        Nat.lt_ceil.2 ((lt_div_iff hstep).2 hlt)
      rw [show Nat.ceil (duration / step) - j = (Nat.ceil (duration / step) - (j + 1)) + 1 from
        by omega]
      rw [List.range'_succ, List.map_cons, List.foldl_cons]
    · simp only [analyzeBpmLoop]
      have hle : Nat.ceil (duration / step) ≤ j := by
        rw [Nat.ceil_le, div_le_iff hstep]
        exact not_lt.1 hlt
      rw [if_neg hlt, Nat.sub_eq_zero_of_le hle]
      simp

/-! ### Claim theorems -/

/-- Claim C1: in the gain/phase composition of the comparator volume
effect, with gainA/gainB the auto gain pair when auto gain is enabled and
1 otherwise: differential mode ON sets deck A to volume gainA with phase
+1 and deck B to volume gainB with phase -1, independent of the crossfade
position; differential mode OFF sets deck A to volume (1-crossfade)*gainA
and deck B to volume crossfade*gainB, both with phase +1; and the ghost
decks are set to volume 0 in both modes. -/
theorem c1_gain_phase_composition (s : MixState) :
    (s.isDiffMode = true →
      volumeEffect ViewMode.comparator s =
        some ⟨⟨if s.autoGain then s.gainA else 1, 1, true⟩,
          ⟨if s.autoGain then s.gainB else 1, -1, true⟩, 0, 0⟩ ∧
      ∀ c : ℝ,
        volumeEffect ViewMode.comparator { s with crossfade := c } =
          volumeEffect ViewMode.comparator s) ∧
    (s.isDiffMode = false →
      volumeEffect ViewMode.comparator s =
        some ⟨⟨(1 - s.crossfade) * (if s.autoGain then s.gainA else 1), 1, false⟩,
          ⟨s.crossfade * (if s.autoGain then s.gainB else 1), 1, false⟩, 0, 0⟩) := by
  constructor
  · intro h
    constructor
    · simp [volumeEffect, h]
    · intro c
      simp [volumeEffect, h]
  · intro h
    simp [volumeEffect, h]

/-- Witness for C1 at concrete states: a differential mode state and a
crossfade state. -/
theorem c1_witness :
    volumeEffect ViewMode.comparator ⟨0.25, true, true, 0.7, 0.9⟩ =
      some ⟨⟨0.7, 1, true⟩, ⟨0.9, -1, true⟩, 0, 0⟩ ∧
    volumeEffect ViewMode.comparator ⟨0.5, false, false, 0.7, 0.9⟩ =
      some ⟨⟨(1 - 0.5) * 1, 1, false⟩, ⟨0.5 * 1, 1, false⟩, 0, 0⟩ := by
  constructor
  · have h := (c1_gain_phase_composition ⟨0.25, true, true, 0.7, 0.9⟩).1 rfl
    simpa using h.1
  · have h := (c1_gain_phase_composition ⟨0.5, false, false, 0.7, 0.9⟩).2 rfl
    simpa using h

/-- Claim C2: the auto gain resolver returns
gainA = 10 ^ ((min dbA dbB - dbA) / 20) and analogously for B; the track
with lower or equal measured loudness has gain exactly 1, the louder track
has gain strictly below 1, the larger of the two gains is exactly 1, and
both gains are at most 1 (no boost above native level). -/
theorem c2_autoGain_resolver (dbA dbB : ℝ) :
    (autoGainPair dbA dbB).A = (10 : ℝ) ^ ((min dbA dbB - dbA) / 20) ∧
    (autoGainPair dbA dbB).B = (10 : ℝ) ^ ((min dbA dbB - dbB) / 20) ∧
    (dbA ≤ dbB → (autoGainPair dbA dbB).A = 1) ∧
    (dbB ≤ dbA → (autoGainPair dbA dbB).B = 1) ∧
    (dbB < dbA → (autoGainPair dbA dbB).A < 1) ∧
    (dbA < dbB → (autoGainPair dbA dbB).B < 1) ∧
    max (autoGainPair dbA dbB).A (autoGainPair dbA dbB).B = 1 ∧
    (autoGainPair dbA dbB).A ≤ 1 ∧ (autoGainPair dbA dbB).B ≤ 1 := by
  have h10 : (1 : ℝ) < 10 := by norm_num
  have hA_le : (autoGainPair dbA dbB).A ≤ 1 := by
    apply Real.rpow_le_one_of_one_le_of_nonpos h10.le
    have := min_le_left dbA dbB
    have hnum : min dbA dbB - dbA ≤ 0 := by linarith
    linarith [div_nonpos_of_nonpos_of_nonneg hnum (by norm_num : (0:ℝ) ≤ 20)]
  have hB_le : (autoGainPair dbA dbB).B ≤ 1 := by
    apply Real.rpow_le_one_of_one_le_of_nonpos h10.le
    have := min_le_right dbA dbB
    have hnum : min dbA dbB - dbB ≤ 0 := by linarith
    linarith [div_nonpos_of_nonpos_of_nonneg hnum (by norm_num : (0:ℝ) ≤ 20)]
  have hA_eq : dbA ≤ dbB → (autoGainPair dbA dbB).A = 1 := by
    intro h
    show (10 : ℝ) ^ ((min dbA dbB - dbA) / 20) = 1
    rw [min_eq_left h, sub_self, zero_div, Real.rpow_zero]
  have hB_eq : dbB ≤ dbA → (autoGainPair dbA dbB).B = 1 := by
    intro h
    show (10 : ℝ) ^ ((min dbA dbB - dbB) / 20) = 1
    rw [min_eq_right h, sub_self, zero_div, Real.rpow_zero]
  have hA_lt : dbB < dbA → (autoGainPair dbA dbB).A < 1 := by
    intro h
    apply Real.rpow_lt_one_of_one_lt_of_neg h10
    rw [min_eq_right h.le]
    apply div_neg_of_neg_of_pos (by linarith) (by norm_num)
  have hB_lt : dbA < dbB → (autoGainPair dbA dbB).B < 1 := by
    intro h
    apply Real.rpow_lt_one_of_one_lt_of_neg h10
    rw [min_eq_left h.le]
    apply div_neg_of_neg_of_pos (by linarith) (by norm_num)
  have hmax : max (autoGainPair dbA dbB).A (autoGainPair dbA dbB).B = 1 := by
    rcases le_total dbA dbB with h | h
    · rw [hA_eq h]
      exact max_eq_left hB_le
    · rw [hB_eq h]
      exact max_eq_right hA_le
  exact ⟨rfl, rfl, hA_eq, hB_eq, hA_lt, hB_lt, hmax, hA_le, hB_le⟩

/-- Witness for C2 at dbA = -10, dbB = -16: the quieter track keeps gain 1
and the louder track is attenuated below 1. -/
theorem c2_witness :
    ((-16 : ℝ) ≤ -10 ∧ (autoGainPair (-10) (-16)).B = 1) ∧
    ((-16 : ℝ) < -10 ∧ (autoGainPair (-10) (-16)).A < 1) :=
  ⟨⟨by norm_num, (c2_autoGain_resolver (-10) (-16)).2.2.2.1 (by norm_num)⟩,
    ⟨by norm_num, (c2_autoGain_resolver (-10) (-16)).2.2.2.2.1 (by norm_num)⟩⟩

/-- Claim C5: the loudness meter result is always at least -100, it equals
exactly -100 whenever the computed RMS is below 0.00001, and an all zero
input returns exactly -100. -/
theorem c5_loudness_floor (buffer : AudioBufferModel)
    (hch : 0 < buffer.channels.length) :
    -100 ≤ calculateTrackLoudness buffer ∧
    (trackRms buffer < 0.00001 → calculateTrackLoudness buffer = -100) ∧
    ((∀ ch ∈ buffer.channels, ∀ x ∈ ch, x = 0) →
      calculateTrackLoudness buffer = -100) := by
  refine ⟨?_, ?_, ?_⟩
  · unfold calculateTrackLoudness
    split_ifs with h
    · exact le_refl _
    · push_neg at h
      have hpos : (0 : ℝ) < trackRms buffer := lt_of_lt_of_le (by norm_num) h
      have hpow : (10 : ℝ) ^ (-5 : ℝ) = 0.00001 := by
        rw [show (-5 : ℝ) = ((-5 : ℤ) : ℝ) by norm_num, Real.rpow_intCast]
        norm_num
      have h5 : (-5 : ℝ) ≤ Real.logb 10 (trackRms buffer) := by
        rw [Real.le_logb_iff_rpow_le (by norm_num : (1 : ℝ) < 10) hpos, hpow]
        exact h
      linarith
  · intro h
    simp [calculateTrackLoudness, h]
  · intro h
    have hrms : trackRms buffer = 0 := by
      unfold trackRms
      have hzero :
          ∀ x ∈ buffer.channels.map fun data => channelMeanSquare data buffer.length,
            x = 0 := by
        intro x hx
        obtain ⟨ch, hmem, rfl⟩ := List.mem_map.1 hx
        unfold channelMeanSquare
        split_ifs with hc
        · have hsum :
              (∑ i ∈ Finset.range (strideCount buffer.length), ch.getD (i * 1000) 0 ^ 2) = 0 := by
            apply Finset.sum_eq_zero
            intro i _
            rw [getD_eq_zero_of_all_zero (h ch hmem)]
            ring
          rw [hsum, zero_div]
        · rfl
      rw [List.sum_eq_zero hzero, zero_div, Real.sqrt_zero]
    rw [calculateTrackLoudness, hrms]
    norm_num

/-- Witness for C5 at a one channel, one sample, all zero buffer. -/
theorem c5_witness :
    0 < (AudioBufferModel.mk [[0]] 1).channels.length ∧
    calculateTrackLoudness ⟨[[0]], 1⟩ = -100 := by
  refine ⟨by simp, (c5_loudness_floor ⟨[[0]], 1⟩ (by simp)).2.2 ?_⟩
  intro ch hch x hx
  simp only [List.mem_singleton] at hch
  subst hch
  simpa using hx

/-- Claim C7: with the seeking and syncing guards clear, in comparator mode
while playing, a master time update issues per slave exactly one corrective
setTime call to the master position iff the drift exceeds 0.04 s (and none
otherwise), any correction raises the syncing guard with a 10 ms reset
delay, and a raised syncing guard suppresses the whole handler. -/
theorem c7_drift_correction :
    (∀ (cfg : SyncConfig) (time : ℝ) (sourceId : TrackId),
      cfg.isSeeking = false → cfg.isSyncing = false →
      cfg.activeTab = ViewMode.comparator → cfg.isPlaying = true →
      sourceId = (if cfg.hasTrackA then TrackId.A else TrackId.B) →
      (handleTimeUpdate cfg time sourceId).corrections =
        (cfg.slaveTimes.map fun slaveTime =>
          if |cfg.masterTime - slaveTime| > 0.04 then some cfg.masterTime else none) ∧
      ((handleTimeUpdate cfg time sourceId).syncingSet = true ↔
        ∃ slaveTime ∈ cfg.slaveTimes, |cfg.masterTime - slaveTime| > 0.04) ∧
      (handleTimeUpdate cfg time sourceId).guardDelayMs =
        (if (handleTimeUpdate cfg time sourceId).syncingSet = true then some 10 else none)) ∧
    (∀ (cfg : SyncConfig) (time : ℝ) (sourceId : TrackId),
      cfg.isSyncing = true → handleTimeUpdate cfg time sourceId = noSyncAction) := by
  constructor
  · intro cfg time sourceId h1 h2 h3 h4 h5
    have hresult :
        handleTimeUpdate cfg time sourceId =
          ⟨some time,
            cfg.slaveTimes.map fun slaveTime =>
              if |cfg.masterTime - slaveTime| > 0.04 then some cfg.masterTime else none,
            (cfg.slaveTimes.map fun slaveTime =>
              if |cfg.masterTime - slaveTime| > 0.04 then some cfg.masterTime else none).any
              Option.isSome,
            if (cfg.slaveTimes.map fun slaveTime =>
                if |cfg.masterTime - slaveTime| > 0.04 then some cfg.masterTime else none).any
                Option.isSome then
              some 10
            else none⟩ := by
      rw [handleTimeUpdate, h1, h2, h3]
      simp [← h5, h4]
    refine ⟨by rw [hresult], ?_, by rw [hresult]⟩
    rw [hresult]
    show (List.any _ _) = true ↔ _
    rw [List.any_eq_true]
    constructor
    · rintro ⟨o, ho, hsome⟩
      obtain ⟨slaveTime, hmem, rfl⟩ := List.mem_map.1 ho
      refine ⟨slaveTime, hmem, ?_⟩
      by_contra hno
      rw [if_neg hno] at hsome
      simp at hsome
    · rintro ⟨slaveTime, hmem, hdrift⟩
      refine ⟨some cfg.masterTime, List.mem_map.2 ⟨slaveTime, hmem, ?_⟩, rfl⟩
      rw [if_pos hdrift]
  · intro cfg time sourceId h
    rw [handleTimeUpdate, h]
    cases hseek : cfg.isSeeking <;> simp

/-- Witness for C7: a slave in sync gets no correction, a drifted slave
gets exactly one setTime to the master position; a raised syncing guard
suppresses everything. -/
theorem c7_witness :
    (handleTimeUpdate ⟨false, false, ViewMode.comparator, true, true, 0, [0, 1]⟩ 5
        TrackId.A).corrections = [none, some 0] ∧
    handleTimeUpdate ⟨false, true, ViewMode.comparator, true, true, 0, [0, 1]⟩ 5
        TrackId.A = noSyncAction := by
  constructor
  · have h :=
      (c7_drift_correction.1 ⟨false, false, ViewMode.comparator, true, true, 0, [0, 1]⟩ 5
        TrackId.A rfl rfl rfl rfl (by simp)).1
    rw [h]
    norm_num
  · exact c7_drift_correction.2 _ 5 TrackId.A rfl

/-- Counterexample for C9: with both deck instances present but the first
buffer still undecoded, the auto gain effect keeps the previous pair (here
(1/2, 1)) instead of resetting it to (1, 1). -/
theorem c9_counterexample :
    autoGainEffect (some ⟨none⟩) (some ⟨some ⟨[[1]], 1⟩⟩) ⟨1 / 2, 1⟩ = ⟨1 / 2, 1⟩ ∧
    (1 / 2 : ℝ) ≠ 1 := by
  constructor
  · rfl
  · norm_num

/-- Claim C9 (amended): the gain pair is reset to (1, 1) whenever either
deck instance is absent; with both instances present the pair is recomputed
from the two decoded buffers once both are available, and while either
buffer is still undecoded the previously computed pair stays in effect. -/
theorem c9_amended_gain_defaults :
    (∀ (wsB : Option DeckHandle) (prev : GainPair),
      autoGainEffect none wsB prev = ⟨1, 1⟩) ∧
    (∀ (wsA : Option DeckHandle) (prev : GainPair),
      autoGainEffect wsA none prev = ⟨1, 1⟩) ∧
    (∀ (a b : DeckHandle) (prev : GainPair),
      a.decodedData = none ∨ b.decodedData = none →
      autoGainEffect (some a) (some b) prev = prev) ∧
    (∀ (a b : DeckHandle) (bufA bufB : AudioBufferModel) (prev : GainPair),
      a.decodedData = some bufA → b.decodedData = some bufB →
      autoGainEffect (some a) (some b) prev =
        autoGainPair (calculateTrackLoudness bufA) (calculateTrackLoudness bufB)) := by
  refine ⟨?_, ?_, ?_, ?_⟩
  · intro wsB prev
    cases wsB <;> rfl
  · intro wsA prev
    cases wsA <;> rfl
  · intro a b prev h
    rcases h with h | h <;>
      cases ha : a.decodedData <;> cases hb : b.decodedData <;>
        simp_all [autoGainEffect]
  · intro a b bufA bufB prev h1 h2
    simp [autoGainEffect, h1, h2]

/-- Claim C3: for every filtered input, duration and nonnegative interval,
the returned tempo timeline is strictly increasing in time and every
emitted bpm lies in [55, 190]. -/
theorem c3_timeline_sorted_bpm_range (data : List ℝ) (sampleRate duration interval : ℝ)
    (hinterval : 0 ≤ interval) :
    (analyzeBpmFromData data sampleRate duration interval).Pairwise
      (fun p q => p.time < q.time) ∧
    ∀ p ∈ analyzeBpmFromData data sampleRate duration interval,
      55 ≤ p.bpm ∧ p.bpm ≤ 190 := by
  obtain ⟨h1, h2⟩ := analyzeFold_invariant data sampleRate duration (seqStep interval)
    (seqStep_pos hinterval) (Nat.ceil (duration / seqStep interval))
  exact ⟨h1, fun p hp => (h2 p hp).1⟩

/-- Witness for C3 at a concrete input. -/
theorem c3_witness :
    (0 : ℝ) ≤ 30 ∧
    (analyzeBpmFromData [] 10 40 30).Pairwise (fun p q => p.time < q.time) :=
  ⟨by norm_num, (c3_timeline_sorted_bpm_range [] 10 40 30 (by norm_num)).1⟩

/-- First window sample of the window at 0 s, sample rate 10. -/
theorem winStartSample_ten_zero : winStartSample 10 0 = 0 := by
  unfold winStartSample
  norm_num

/-- First window sample of the window at 30 s, sample rate 10. -/
theorem winStartSample_ten_thirty : winStartSample 10 30 = 300 := by
  unfold winStartSample
  rw [show (30 : ℝ) * 10 = ((300 : ℤ) : ℝ) by norm_num, Int.floor_intCast]

/-- End sample of the window at 0 s: duration 40 s, step 30 s, rate 10. -/
theorem winEndSample_ten_zero : winEndSample 10 40 30 0 = 300 := by
  unfold winEndSample
  rw [show min ((0 : ℝ) + max 30 30) 40 * 10 = ((300 : ℤ) : ℝ) by
    norm_num [min_def, max_def], Int.floor_intCast]

/-- End sample of the window at 30 s: the nominal 30 s window is truncated
at the 40 s end of the track, leaving 10 s of audio. -/
theorem winEndSample_ten_thirty : winEndSample 10 40 30 30 = 400 := by
  unfold winEndSample
  rw [show min ((30 : ℝ) + max 30 30) 40 * 10 = ((400 : ℤ) : ℝ) by
    norm_num [min_def, max_def], Int.floor_intCast]

/-- The window at 0 s holds 30 s of audio and is not skipped. -/
theorem not_skipped_ten_zero : ¬ winSkipped 10 40 30 0 := by
  unfold winSkipped
  rw [winEndSample_ten_zero, winStartSample_ten_zero]
  push_cast
  norm_num

/-- The window at 30 s holds 10 s of audio, which is at least 5 s, so it is
not skipped either. -/
theorem not_skipped_ten_thirty : ¬ winSkipped 10 40 30 30 := by
  unfold winSkipped
  rw [winEndSample_ten_thirty, winStartSample_ten_thirty]
  push_cast
  norm_num

/-- Concrete run of the sequencer: empty filtered data, sample rate 10,
duration 40 s, interval 30 s yields two points, one per window. -/
theorem analyze_nil_eval : analyzeBpmFromData [] 10 40 30 = [⟨0, 55⟩, ⟨30, 55⟩] := by
  have hstep : seqStep 30 = (30 : ℝ) := by
    unfold seqStep
    norm_num
  have hN : Nat.ceil ((40 : ℝ) / 30) = 2 := by
    rw [Nat.ceil_eq_iff (by norm_num)]
    constructor <;> norm_num
  have hslice : ∀ t, winSlice [] 10 40 30 t = [] := by
    intro t
    unfold winSlice
    exact jsSlice_nil _ _
  unfold analyzeBpmFromData
  rw [hstep, hN, analyzeFold_eq_filterMap [] 10 40 30 (by norm_num) 2]
  rw [show List.range 2 = [0, 1] from rfl]
  simp only [List.filterMap_cons, List.filterMap_nil, Nat.cast_zero, Nat.cast_one,
    zero_mul, one_mul, hslice, detect_nil_ten, if_neg not_skipped_ten_zero,
    if_neg not_skipped_ten_thirty, Option.getD_some]

/-- Counterexample for C4: in the run of analyze_nil_eval, the window at
30 s is invoked (not skipped, and it emits a point), yet it holds only 100
samples (10 s of audio at rate 10), not the max(step, 30) = 30 s = 300
samples that the claim asserts for every invoked window. -/
theorem c4_counterexample :
    analyzeBpmFromData [] 10 40 30 = [⟨0, 55⟩, ⟨30, 55⟩] ∧
    ¬ winSkipped 10 40 30 30 ∧
    ((winEndSample 10 40 30 30 : ℝ) - (winStartSample 10 30 : ℝ)) = 100 ∧
    max (30 : ℝ) 30 * 10 = 300 ∧
    (100 : ℝ) ≠ 300 := by
  refine ⟨analyze_nil_eval, not_skipped_ten_thirty, ?_, by norm_num [max_def], by norm_num⟩
  rw [winEndSample_ten_thirty, winStartSample_ten_thirty]
  push_cast
  norm_num

/-- Claim C4 (amended): with step = interval (30 s when interval = 0), the
sequencer places one window at every multiple of step in [0, duration);
each window spans from floor(start * rate) to
floor(min(start + max(step, 30), duration) * rate) - the nominal
max(step, 30) window truncated at the end of the track, in particular
untruncated whenever start + max(step, 30) ≤ duration; windows holding
fewer than 5 s of audio are skipped with no emitted point, and every other
window emits exactly its fresh point. -/
theorem c4_amended_window_layout (data : List ℝ) (sampleRate duration interval : ℝ)
    (hsr : 0 < sampleRate) (hinterval : 0 ≤ interval) :
    (∀ k : ℕ, k < Nat.ceil (duration / seqStep interval) ↔
      (k : ℝ) * seqStep interval < duration) ∧
    analyzeBpmFromData data sampleRate duration interval =
      ((List.range (Nat.ceil (duration / seqStep interval))).filterMap fun k : ℕ =>
        if winSkipped sampleRate duration (seqStep interval)
            ((k : ℝ) * seqStep interval) then none
        else
          some ⟨(k : ℝ) * seqStep interval,
            (detectBpmInChunk
                (winSlice data sampleRate duration (seqStep interval)
                  ((k : ℝ) * seqStep interval)) sampleRate).getD 0⟩) ∧
    (∀ k : ℕ,
      winSkipped sampleRate duration (seqStep interval) ((k : ℝ) * seqStep interval) →
      ∀ p ∈ analyzeBpmFromData data sampleRate duration interval,
        p.time ≠ (k : ℝ) * seqStep interval) ∧
    ∀ startTime : ℝ, startTime + max (seqStep interval) 30 ≤ duration →
      winEndSample sampleRate duration (seqStep interval) startTime =
        ⌊(startTime + max (seqStep interval) 30) * sampleRate⌋ := by
  have hstep := seqStep_pos hinterval
  have hchar :
      analyzeBpmFromData data sampleRate duration interval =
        ((List.range (Nat.ceil (duration / seqStep interval))).filterMap fun k : ℕ =>
          if winSkipped sampleRate duration (seqStep interval)
              ((k : ℝ) * seqStep interval) then none
          else
            some ⟨(k : ℝ) * seqStep interval,
              (detectBpmInChunk
                  (winSlice data sampleRate duration (seqStep interval)
                    ((k : ℝ) * seqStep interval)) sampleRate).getD 0⟩) :=
    analyzeFold_eq_filterMap data sampleRate duration (seqStep interval) hsr.le _
  refine ⟨?_, hchar, ?_, ?_⟩
  · intro k
    exact Nat.lt_ceil.trans (lt_div_iff hstep)
  · intro k hk p hp heq
    rw [hchar] at hp
    obtain ⟨k', hk', hfk'⟩ := List.mem_filterMap.1 hp
    by_cases hsk :
      winSkipped sampleRate duration (seqStep interval) ((k' : ℝ) * seqStep interval)
    · rw [if_pos hsk] at hfk'
      exact Option.noConfusion hfk'
    · rw [if_neg hsk] at hfk'
      injection hfk' with hpt
      have htime : (k' : ℝ) * seqStep interval = (k : ℝ) * seqStep interval := by
        rw [← heq, ← hpt]
      have hkk : k' = k :=
        Nat.cast_injective (mul_right_cancel₀ (ne_of_gt hstep) htime)
      subst hkk
      exact hsk hk
  · intro t ht
    unfold winEndSample
    rw [min_eq_left ht]

/-- Witness for C4 (amended) at a concrete input: the window index 1 lies
below the window count iff its start 30 s lies below the 40 s duration. -/
theorem c4_witness :
    ((0 : ℝ) < 10 ∧ (0 : ℝ) ≤ 30) ∧
    ((1 : ℕ) < Nat.ceil ((40 : ℝ) / seqStep 30) ↔ ((1 : ℕ) : ℝ) * seqStep 30 < 40) :=
  ⟨⟨by norm_num, by norm_num⟩,
    (c4_amended_window_layout [] 10 40 30 (by norm_num) (by norm_num)).1 1⟩

/-- Claim C6: in the sequencer loop body, when the per window estimation of
an invoked window yields no result and a prior point exists, a point is
emitted at the new window start whose bpm equals exactly the last previous
bpm; when the very first (prior point free) invoked window fails, nothing
is emitted for it. -/
theorem c6_carry_forward (data : List ℝ) (sampleRate duration step : ℝ)
    (points : List BpmPoint) (startTime : ℝ)
    (hdet : detectBpmInChunk (winSlice data sampleRate duration step startTime) sampleRate =
      none)
    (hns : ¬ winSkipped sampleRate duration step startTime) :
    (∀ prev, points.getLast? = some prev →
      processWindow data sampleRate duration step points startTime =
        points ++ [⟨startTime, prev.bpm⟩]) ∧
    (points = [] →
      processWindow data sampleRate duration step points startTime = points) := by
  constructor
  · intro prev hlast
    unfold processWindow
    rw [if_neg hns, hdet, hlast]
  · intro h
    subst h
    unfold processWindow
    rw [if_neg hns, hdet]
    rfl

/-- Witness for C6: with an empty slice at sample rate -256 the estimator
returns none while the window is not skipped; a prior point at bpm 100 is
carried forward to the new timestamp, and with no prior point nothing is
emitted. -/
theorem c6_witness :
    detectBpmInChunk (winSlice [] (-256) 31 30 30) (-256) = none ∧
    ¬ winSkipped (-256) 31 30 30 ∧
    processWindow [] (-256) 31 30 [⟨0, 100⟩] 30 = [⟨0, 100⟩] ++ [⟨30, 100⟩] ∧
    processWindow [] (-256) 31 30 [] 30 = [] := by
  have hslice : winSlice [] (-256) 31 30 30 = [] := by
    unfold winSlice
    exact jsSlice_nil _ _
  have hdet : detectBpmInChunk (winSlice [] (-256) 31 30 30) (-256) = none := by
    rw [hslice]
    exact detect_nil_neg
  have hstart : winStartSample (-256) 30 = -7680 := by
    unfold winStartSample
    rw [show (30 : ℝ) * (-256) = ((-7680 : ℤ) : ℝ) by norm_num, Int.floor_intCast]
  have hend : winEndSample (-256) 31 30 30 = -7936 := by
    unfold winEndSample
    rw [show min ((30 : ℝ) + max 30 30) 31 * (-256) = ((-7936 : ℤ) : ℝ) by
      norm_num [min_def, max_def], Int.floor_intCast]
  have hns : ¬ winSkipped (-256) 31 30 30 := by
    unfold winSkipped
    rw [hend, hstart]
    push_cast
    norm_num
  exact ⟨hdet, hns,
    (c6_carry_forward [] (-256) 31 30 [⟨0, 100⟩] 30 hdet hns).1 ⟨0, 100⟩ rfl,
    (c6_carry_forward [] (-256) 31 30 [] 30 hdet hns).2 rfl⟩

/-- Counterexample for C8: with duration 1 s and interval -1 s, the
sequencer loop never terminates - no fuel bound completes it - so negative
intervals are neither clamped nor defaulted. -/
theorem c8_counterexample : ¬ analyzeBpmTerminates [] 1 1 (-1) := by
  unfold analyzeBpmTerminates
  rintro ⟨n, points, h⟩
  have hstep : seqStep (-1) = -1 := by
    unfold seqStep
    norm_num
  rw [hstep, analyzeBpmLoop_neg_none n 0 [] le_rfl] at h
  exact Option.noConfusion h

/-- Claim C8 (amended): interval 0 is defaulted to a 30 s step, and for
every nonnegative interval the sequencer loop terminates normally and
returns the timeline (the total function analyzeBpmFromData); crossfade
and interval values are otherwise used as supplied, and for negative
intervals the loop diverges (see the counterexample). -/
theorem c8_amended_termination (data : List ℝ) (sampleRate duration interval : ℝ)
    (hinterval : 0 ≤ interval) :
    ∃ n, analyzeBpmLoop data sampleRate duration (seqStep interval) n 0 [] =
      some (analyzeBpmFromData data sampleRate duration interval) := by
  have hstep := seqStep_pos hinterval
  refine ⟨Nat.ceil (duration / seqStep interval), ?_⟩
  have h := analyzeBpmLoop_eq data sampleRate duration (seqStep interval) hstep
    (Nat.ceil (duration / seqStep interval)) 0 []
    (by
      push_cast
      rw [zero_add, ← div_le_iff hstep]
      exact Nat.le_ceil _)
  rw [show ((0 : ℕ) : ℝ) * seqStep interval = 0 by norm_num] at h
  rw [h, Nat.sub_zero, ← List.range_eq_range']
  unfold analyzeBpmFromData
  rfl

/-- Witness for C8 (amended) at a concrete input. -/
theorem c8_witness :
    (0 : ℝ) ≤ 30 ∧
    ∃ n, analyzeBpmLoop [] 10 40 (seqStep 30) n 0 [] =
      some (analyzeBpmFromData [] 10 40 30) :=
  ⟨by norm_num, c8_amended_termination [] 10 40 30 (by norm_num)⟩

/-- Claim C10: for a positive sample rate (all samples being finite reals
in this embedding), the estimator never returns the null outcome - the
first candidate lag already beats the -1 sentinel - and consequently the
sequencer timeline consists exactly of one fresh point per non skipped
window: the carry forward branch is unreachable. -/
theorem c10_estimator_never_null (sampleRate : ℝ) (hsr : 0 < sampleRate) :
    (∀ data : List ℝ, (detectBpmInChunk data sampleRate).isSome = true) ∧
    ∀ (data : List ℝ) (duration interval : ℝ), 0 ≤ interval →
      analyzeBpmFromData data sampleRate duration interval =
        ((List.range (Nat.ceil (duration / seqStep interval))).filterMap fun k : ℕ =>
          if winSkipped sampleRate duration (seqStep interval)
              ((k : ℝ) * seqStep interval) then none
          else
            some ⟨(k : ℝ) * seqStep interval,
              (detectBpmInChunk
                  (winSlice data sampleRate duration (seqStep interval)
                    ((k : ℝ) * seqStep interval)) sampleRate).getD 0⟩) := by
  refine ⟨fun data => detectBpmInChunk_isSome data hsr.le, ?_⟩
  intro data duration interval _
  exact analyzeFold_eq_filterMap data sampleRate duration (seqStep interval) hsr.le _

/-- Witness for C10 at a concrete positive sample rate. -/
theorem c10_witness :
    (0 : ℝ) < 10 ∧ (detectBpmInChunk [] 10).isSome = true :=
  ⟨by norm_num, (c10_estimator_never_null 10 (by norm_num)).1 []⟩

/-- Witness for C9 (amended) at concrete handles and buffers. -/
theorem c9_witness :
    autoGainEffect none (some ⟨some ⟨[[1]], 1⟩⟩) ⟨1 / 2, 1⟩ = ⟨1, 1⟩ ∧
    autoGainEffect (some ⟨some ⟨[[0]], 1⟩⟩) (some ⟨none⟩) ⟨1 / 2, 1⟩ = ⟨1 / 2, 1⟩ ∧
    autoGainEffect (some ⟨some ⟨[[0]], 1⟩⟩) (some ⟨some ⟨[[0]], 1⟩⟩) ⟨1 / 2, 1⟩ =
      autoGainPair (calculateTrackLoudness ⟨[[0]], 1⟩) (calculateTrackLoudness ⟨[[0]], 1⟩) := by
  refine ⟨c9_amended_gain_defaults.1 _ _, ?_, ?_⟩
  · exact c9_amended_gain_defaults.2.2.1 _ _ _ (Or.inr rfl)
  · exact c9_amended_gain_defaults.2.2.2 _ _ _ _ _ rfl rfl

end LogicAudio

end
